import Mathlib

/-!
# mob: process execution core and task clean dispatch

A shallow embedding of `src/process.cpp` (async pipe, process builder, process
runner) and of the `do_clean` entry points of the tasks `binary_io`, `bsa`,
`directxtex` and `mmio`.

Conventions of the embedding:

* `std::string` is `String`; `+` and `+=` are `++` (both associate to the left).
* `DWORD` values are natural numbers below `2 ^ 32`; a value written by the OS is
  reduced `% 2 ^ 32` when it is stored, and `static_cast<int>` is written out as
  the two's-complement reinterpretation.
* Values the operating system or another thread supplies (results of `ReadFile`,
  `WaitForSingleObject`, ..., calls of `interrupt()`) are read from an explicit
  record given per call or per loop iteration; the OS calls the code makes are
  appended to a log.
* `bail_out` throws: it is an abnormal outcome carrying the message and, when the
  two-argument overload is used, the OS error code.
-/

namespace mob

/-! ## Constants of the Windows headers -/

/-- The value of `WAIT_OBJECT_0` (winbase.h). -/
def WAIT_OBJECT_0 : Nat := 0

/-- The value of `WAIT_TIMEOUT` (winerror.h). -/
def WAIT_TIMEOUT : Nat := 258

/-- The value of `WAIT_FAILED` (winbase.h). -/
def WAIT_FAILED : Nat := 0xFFFFFFFF

/-- The value of `ERROR_BROKEN_PIPE` (winerror.h). -/
def ERROR_BROKEN_PIPE : Nat := 109

/-- The value of `ERROR_IO_INCOMPLETE` (winerror.h). -/
def ERROR_IO_INCOMPLETE : Nat := 996

/-- The value of `ERROR_IO_PENDING` (winerror.h). -/
def ERROR_IO_PENDING : Nat := 997

/-! ## External value types and configuration -/

/-- An `fs::path`, seen through `string()`. -/
structure path where
  string : String
deriving DecidableEq, Repr

/-- The test `fs::path::empty()`. -/
def path.empty (p : path) : Bool := p.string.isEmpty

/-- A `mob::url`, seen through `string()`. -/
structure url where
  string : String
deriving DecidableEq, Repr

/-- The enumerators of `process::flags_t` and `process::arg_flags`. They are
declared in `process.h`; every definition below takes their values as a
parameter. -/
structure process_h where
  noflags : Nat
  allow_failure : Nat
  stdout_is_verbose : Nat
  quiet : Nat
  nospace : Nat
deriving DecidableEq, Repr

/-- The configuration service as the code reads it: `conf::verbose()`,
`conf::dry()`, `conf().version().get(name)` and `conf().path().build()`. -/
structure conf where
  verbose : Bool
  dry : Bool
  version : String → String
  build : path

/-! ## async_pipe -/

/-- The state of an `async_pipe` that `read()` inspects or changes: the flag
`pending_`. -/
structure async_pipe where
  pending_ : Bool
deriving DecidableEq, Repr

/-- The constructor `async_pipe::async_pipe()`. -/
def async_pipe.init : async_pipe := { pending_ := false }

/-- The outcome of `ReadFile` or `GetOverlappedResult`: success with the bytes
transferred, or failure with the value of `GetLastError()`. -/
inductive OsResult where
  | success (bytes : String)
  | failure (e : Nat)
deriving DecidableEq, Repr

/-- What the OS answers during one call of `async_pipe::read()`. Only the fields
of the calls that are really made are consulted. -/
structure ReadOS where
  read_file : OsResult
  wait : Nat
  wait_error : Nat
  overlapped : OsResult
deriving DecidableEq, Repr

/-- The OS calls issued by the pipe and by the join loop. -/
inductive OsCall where
  | ReadFile
  | WaitForSingleObject
  | GetOverlappedResult
  | ResetEvent
  | GetLastError
  | WaitForProcess
  | GetExitCodeProcess
  | GetProcessId
  | TerminateProcess (code : Nat)
  | GenerateConsoleCtrlEvent (pid : Nat)
deriving DecidableEq, Repr

/-- A call of `bail_out`: the message and, for the two-argument overload, the OS
error code. -/
structure Bail where
  msg : String
  error : Option Nat
deriving DecidableEq, Repr

/-- The result of one `async_pipe::read()`: the pipe afterwards, the OS calls
made, and either the returned string or the `bail_out` that was raised. -/
structure ReadResult where
  pipe : async_pipe
  calls : List OsCall
  value : Except Bail String

/-- The method `async_pipe::try_read()`. -/
def async_pipe.try_read (a : async_pipe) (os : ReadOS) : ReadResult :=
  match os.read_file with
  | .failure e =>
    if e = ERROR_IO_PENDING then
      { pipe := { a with pending_ := true },
        calls := [.ReadFile, .GetLastError], value := .ok "" }
    else if e = ERROR_BROKEN_PIPE then
      { pipe := a, calls := [.ReadFile, .GetLastError], value := .ok "" }
    else
      { pipe := a, calls := [.ReadFile, .GetLastError],
        value := .error ⟨"async_pipe read failed", some e⟩ }
  | .success bytes =>
    { pipe := a, calls := [.ReadFile], value := .ok bytes }

/-- The method `async_pipe::check_pending()`. -/
def async_pipe.check_pending (a : async_pipe) (os : ReadOS) : ReadResult :=
  if os.wait = WAIT_FAILED then
    { pipe := a, calls := [.WaitForSingleObject, .GetLastError],
      value := .error ⟨"WaitForSingleObject in async_pipe failed", some os.wait_error⟩ }
  else
    match os.overlapped with
    | .failure e =>
      if e = ERROR_IO_INCOMPLETE then
        { pipe := a, calls := [.WaitForSingleObject, .GetOverlappedResult, .GetLastError],
          value := .ok "" }
      else if e = WAIT_TIMEOUT then
        { pipe := a, calls := [.WaitForSingleObject, .GetOverlappedResult, .GetLastError],
          value := .ok "" }
      else if e = ERROR_BROKEN_PIPE then
        { pipe := a, calls := [.WaitForSingleObject, .GetOverlappedResult, .GetLastError],
          value := .ok "" }
      else
        { pipe := a, calls := [.WaitForSingleObject, .GetOverlappedResult, .GetLastError],
          value := .error ⟨"GetOverlappedResult failed in async_pipe", some e⟩ }
    | .success bytes =>
      { pipe := { a with pending_ := false },
        calls := [.WaitForSingleObject, .GetOverlappedResult, .ResetEvent],
        value := .ok bytes }

/-- The method `async_pipe::read()`. -/
def async_pipe.read (a : async_pipe) (os : ReadOS) : ReadResult :=
  if a.pending_ then a.check_pending os else a.try_read os

/-- One entry of the history of a pipe: the flag before a `read()`, what the OS
answered, and the result of the call. -/
structure ReadStep where
  before : async_pipe
  os : ReadOS
  result : ReadResult

/-- A sequence of `read()` calls on one pipe, one OS record per call. The
sequence stops at the first call that raises. -/
def async_pipe.reads (a : async_pipe) : List ReadOS → List ReadStep
  | [] => []
  | os :: rest =>
    let r := a.read os
    match r.value with
    | .error _ => [⟨a, os, r⟩]
    | .ok _ => ⟨a, os, r⟩ :: async_pipe.reads r.pipe rest

/-! ## process: builder -/

/-- The member `process::impl`: the owned process handle, the atomic interrupt
flag and the two pipes. -/
structure impl where
  handle : Option Nat
  interrupt : Bool
  stdout_pipe : async_pipe
  stderr_pipe : async_pipe
deriving DecidableEq, Repr

/-- The data members of `mob::process`. -/
structure process where
  name_ : String
  bin_ : path
  cwd_ : path
  flags_ : Nat
  raw_ : String
  cmd_ : String
  code_ : Nat
  impl_ : impl
deriving DecidableEq, Repr

/-- The constructor `process::process()`. -/
def process.init (h : process_h) : process :=
  { name_ := "", bin_ := ⟨""⟩, cwd_ := ⟨""⟩, flags_ := h.noflags, raw_ := "", cmd_ := "",
    code_ := 0,
    impl_ := { handle := none, interrupt := false,
               stdout_pipe := async_pipe.init, stderr_pipe := async_pipe.init } }

/-- The factory `process::raw(cmd)`. -/
def process.raw (h : process_h) (cmd : String) : process :=
  { process.init h with raw_ := cmd }

/-- The setter `process::name(name)`. -/
def process.name (p : process) (name : String) : process := { p with name_ := name }

/-- The setter `process::binary(p)`. -/
def process.binary (p : process) (b : path) : process := { p with bin_ := b }

/-- The setter `process::cwd(p)`. -/
def process.cwd (p : process) (d : path) : process := { p with cwd_ := d }

/-- The setter `process::flags(f)`. -/
def process.flags (p : process) (f : Nat) : process := { p with flags_ := f }

/-- The method `process::make_cmd()`. -/
def process.make_cmd (h : process_h) (cf : conf) (p : process) : String :=
  if !p.raw_.isEmpty then p.raw_
  else
    let s := "\"" ++ p.bin_.string ++ "\" " ++ p.cmd_
    if p.flags_ &&& h.stdout_is_verbose != 0 then
      if !cf.verbose then s ++ " > NUL" else s
    else s

/-- The method `process::make_name()`. -/
def process.make_name (h : process_h) (cf : conf) (p : process) : String :=
  if !p.name_.isEmpty then p.name_ else p.make_cmd h cf

/-- The method `process::pipe_into(p)`. -/
def process.pipe_into (h : process_h) (cf : conf) (a p : process) : process :=
  { a with raw_ := a.make_cmd h cf ++ " | " ++ p.make_cmd h cf }

/-- The method `process::add_arg(k, v, f)`. -/
def process.add_arg (h : process_h) (cf : conf) (p : process) (k v : String) (f : Nat) :
    process :=
  if (f &&& h.quiet != 0) && cf.verbose then p
  else if k.isEmpty && v.isEmpty then p
  else if k.isEmpty then { p with cmd_ := p.cmd_ ++ (" " ++ v) }
  else if (f &&& h.nospace != 0) || k.back == '=' then
    { p with cmd_ := p.cmd_ ++ (" " ++ k ++ v) }
  else { p with cmd_ := p.cmd_ ++ (" " ++ k ++ " " ++ v) }

/-- The overloads `process::arg_to_string(const char*, bool)` and
`process::arg_to_string(const std::string&, bool)`. -/
def process.arg_to_string (s : String) (force_quote : Bool) : String :=
  if force_quote then "\"" ++ s ++ "\"" else s

/-- The overload `process::arg_to_string(const fs::path&, bool)`. -/
def process.arg_to_string_path (p : path) (_force_quote : Bool) : String :=
  "\"" ++ p.string ++ "\""

/-- The overload `process::arg_to_string(const url&, bool)`. -/
def process.arg_to_string_url (u : url) (force_quote : Bool) : String :=
  if force_quote then "\"" ++ u.string ++ "\"" else u.string

/-- The method `process::exit_code()`: `static_cast<int>(code_)` on the 32-bit
`DWORD` member. -/
def process.exit_code (p : process) : Int :=
  if p.code_ % 2 ^ 32 < 2 ^ 31 then ((p.code_ % 2 ^ 32 : Nat) : Int)
  else ((p.code_ % 2 ^ 32 : Nat) : Int) - 2 ^ 32

/-- The method `process::interrupt()`. -/
def process.interrupt (p : process) : process :=
  { p with impl_ := { p.impl_ with interrupt := true } }

/-! ## process: runner -/

/-- The statement `impl_.handle = {}`. -/
def process.release (p : process) : process :=
  { p with impl_ := { p.impl_ with handle := none } }

/-- What the OS and the other threads supply during one iteration of the loop
of `join()`: whether `interrupt()` has been called on the process since the
flag was last read, the result of `WaitForSingleObject` on the process handle,
the exit code `GetExitCodeProcess` stores, the answers to the two pipe reads,
the result of `GetProcessId`, and the value of `GetLastError()`. -/
structure JoinOS where
  interrupt_called : Bool
  wait : Nat
  exit_code : Nat
  stdout_os : ReadOS
  stderr_os : ReadOS
  pid : Nat
  last_error : Nat
deriving DecidableEq, Repr

/-- How `join()` is left: by a normal return, by a `bail_out` that `join()`
itself calls, or by a `bail_out` raised inside `async_pipe::read()` that
propagates through `join()`. -/
inductive Outcome where
  | returned
  | bailed (b : Bail)
  | pipe_bailed (b : Bail)
deriving DecidableEq, Repr

/-- The process, the local `interrupted`, the OS calls made so far, and how
`join()` was left (`none` while the loop is still running). -/
structure JoinState where
  p : process
  interrupted : Bool
  log : List OsCall
  outcome : Option Outcome
deriving DecidableEq, Repr

/-- One iteration of the `for (;;)` loop of `process::join()`. -/
def process.join_iter (h : process_h) (cf : conf) (p0 : process) (interrupted : Bool)
    (log0 : List OsCall) (os : JoinOS) : JoinState :=
  let p := if os.interrupt_called then p0.interrupt else p0
  let log := log0 ++ [.WaitForProcess]
  if os.wait = WAIT_OBJECT_0 then
    let p := { p with code_ := os.exit_code % 2 ^ 32 }
    let log := log ++ [.GetExitCodeProcess]
    if (p.flags_ &&& h.allow_failure != 0) || p.impl_.interrupt then
      ⟨p.release, interrupted, log, some .returned⟩
    else if p.code_ != 0 then
      let p := p.release
      ⟨p, interrupted, log,
        some (.bailed ⟨p.make_name h cf ++ " returned " ++ toString p.code_, none⟩)⟩
    else
      ⟨p.release, interrupted, log, some .returned⟩
  else if os.wait = WAIT_TIMEOUT then
    let r1 := p.impl_.stdout_pipe.read os.stdout_os
    let p := { p with impl_ := { p.impl_ with stdout_pipe := r1.pipe } }
    let log := log ++ r1.calls
    match r1.value with
    | .error b => ⟨p, interrupted, log, some (.pipe_bailed b)⟩
    | .ok _ =>
      let r2 := p.impl_.stderr_pipe.read os.stderr_os
      let p := { p with impl_ := { p.impl_ with stderr_pipe := r2.pipe } }
      let log := log ++ r2.calls
      match r2.value with
      | .error b => ⟨p, interrupted, log, some (.pipe_bailed b)⟩
      | .ok _ =>
        if p.impl_.interrupt && !interrupted then
          let log := log ++ [.GetProcessId]
          if os.pid = 0 then
            ⟨p.release, interrupted, log ++ [.TerminateProcess 0xffff], some .returned⟩
          else
            ⟨p, true, log ++ [.GenerateConsoleCtrlEvent os.pid], none⟩
        else
          ⟨p, interrupted, log, none⟩
  else
    ⟨p.release, interrupted, log ++ [.GetLastError],
      some (.bailed ⟨"failed to wait on process", some os.last_error⟩)⟩

/-- The `for (;;)` loop of `process::join()`, run on the iterations the trace
describes. When the trace ends before the loop is left, the outcome is `none`. -/
def process.join_loop (h : process_h) (cf : conf) (p : process) (interrupted : Bool)
    (log : List OsCall) : List JoinOS → JoinState
  | [] => ⟨p, interrupted, log, none⟩
  | os :: rest =>
    let s := p.join_iter h cf interrupted log os
    match s.outcome with
    | some _ => s
    | none => process.join_loop h cf s.p s.interrupted s.log rest

/-- The method `process::join()`. -/
def process.join (h : process_h) (cf : conf) (p : process) (trace : List JoinOS) :
    JoinState :=
  if p.impl_.handle.isNone then ⟨p, false, [], some .returned⟩
  else p.join_loop h cf false [] trace

/-- The destructor `process::~process()`: `join()` with every exception
swallowed. The result is the process state left behind and the OS calls made. -/
def process.destroy (h : process_h) (cf : conf) (p : process) (trace : List JoinOS) :
    process × List OsCall :=
  let s := p.join h cf trace
  (s.p, s.log)

/-- The number of `GenerateConsoleCtrlEvent` calls in a log. -/
def ctrl_breaks (log : List OsCall) : Nat :=
  (log.filter fun c => match c with
    | .GenerateConsoleCtrlEvent _ => true
    | _ => false).length

/-- Whether a log contains a wait on the process handle. -/
def waits (log : List OsCall) : Bool :=
  log.any fun c => c == .WaitForProcess

/-! ## tasks: clean dispatch -/

namespace tasks

/-- Modelled from the spec: the type `clean` of `tasks.h`, a bitset over
`redownload`, `reextract`, `reconfigure` and `rebuild`; one membership bit per
flag. -/
structure clean where
  redownload : Bool
  reextract : Bool
  reconfigure : Bool
  rebuild : Bool
deriving DecidableEq, Repr

/-- The flags a `clean` value ranges over. -/
inductive clean_flag where
  | redownload
  | reextract
  | reconfigure
  | rebuild
deriving DecidableEq, Repr

/-- Modelled from the spec: the helper `is_set(c, flag)` of `tasks.h`, the
membership test of the bitset. -/
def is_set (c : clean) : clean_flag → Bool
  | .redownload => c.redownload
  | .reextract => c.reextract
  | .reconfigure => c.reconfigure
  | .rebuild => c.rebuild

/-- The mode of a `downloader`. -/
inductive downloader_ops where
  | download
  | clean
deriving DecidableEq, Repr

/-- The mode of a `cmake` tool. -/
inductive cmake_ops where
  | generate
  | clean
deriving DecidableEq, Repr

/-- The mode of an `msbuild` tool. -/
inductive msbuild_ops where
  | build
  | clean
deriving DecidableEq, Repr

/-- A `cmake` tool as the fluent setters leave it. -/
structure cmake where
  ops : cmake_ops
  root : path
  prefix_dir : path
  defs : List (String × String)
deriving DecidableEq, Repr

/-- An `msbuild` tool as the fluent setters leave it. -/
structure msbuild where
  ops : msbuild_ops
  solution : path
deriving DecidableEq, Repr

/-- What the tasks use from outside the four task files: `operator/` of
`fs::path`, `cmake::build_path()`, and the `source_path()` of the tasks `zlib`
and `lz4`. -/
structure externals where
  div : path → String → path
  build_path : cmake → path
  zlib_source_path : path
  lz4_source_path : path

/-- An external call made by a task: a tool handed to `run_tool`, or
`op::delete_directory(cx(), p, op::optional)`. -/
inductive ToolCall where
  | downloader (u : url) (o : downloader_ops)
  | extractor (file : path) (output : path)
  | cmake (t : cmake)
  | msbuild (t : msbuild)
  | delete_directory (p : path)
deriving DecidableEq, Repr

/-- The factory `binary_io::version()`. -/
def binary_io.version (cf : conf) : String := cf.version "binary_io"

/-- The function `source_url()` of binary_io.cpp. -/
def binary_io.source_url (cf : conf) : url :=
  ⟨"https://github.com/Ryan-rsm-McKenzie/binary_io/archive/refs/tags/" ++
    binary_io.version cf ++ ".zip"⟩

/-- The function `binary_io::source_path()`. -/
def binary_io.source_path (x : externals) (cf : conf) : path :=
  x.div cf.build ("binary_io-" ++ binary_io.version cf)

/-- The function `create_cmake_tool(src_path, o)` of binary_io.cpp. -/
def binary_io.create_cmake_tool (x : externals) (src_path : path) (o : cmake_ops) : cmake :=
  { ops := o, root := src_path, prefix_dir := x.div src_path "build",
    defs := [("BUILD_TESTING", "OFF")] }

/-- The function `solution_path()` of binary_io.cpp. -/
def binary_io.solution_path (x : externals) (cf : conf) : path :=
  x.div (x.build_path
    (binary_io.create_cmake_tool x (binary_io.source_path x cf) .generate)) "INSTALL.vcxproj"

/-- The function `create_msbuild_tool(o)` of binary_io.cpp. -/
def binary_io.create_msbuild_tool (x : externals) (cf : conf) (o : msbuild_ops) : msbuild :=
  { ops := o, solution := binary_io.solution_path x cf }

/-- The method `binary_io::do_clean(c)`; the result is the sequence of external
calls, each of which is taken to return. -/
def binary_io.do_clean (x : externals) (cf : conf) (c : clean) : List ToolCall := Id.run do
  let mut calls : List ToolCall := []
  if is_set c .redownload then
    calls := calls ++ [.downloader (binary_io.source_url cf) .clean]
  if is_set c .reextract then
    calls := calls ++ [.delete_directory (binary_io.source_path x cf)]
    return calls
  if is_set c .reconfigure then
    calls := calls ++
      [.cmake (binary_io.create_cmake_tool x (binary_io.source_path x cf) .clean)]
  if is_set c .rebuild then
    calls := calls ++ [.msbuild (binary_io.create_msbuild_tool x cf .clean)]
  return calls

/-- The factory `directxtex::version()`. -/
def directxtex.version (cf : conf) : String := cf.version "directxtex"

/-- The function `source_url()` of directxtex.cpp. -/
def directxtex.source_url (cf : conf) : url :=
  ⟨"https://github.com/microsoft/DirectXTex/archive/refs/tags/" ++
    directxtex.version cf ++ ".zip"⟩

/-- The function `directxtex::source_path()`. -/
def directxtex.source_path (x : externals) (cf : conf) : path :=
  x.div cf.build ("directxtex-" ++ directxtex.version cf)

/-- The function `create_cmake_tool(src_path, o)` of directxtex.cpp. -/
def directxtex.create_cmake_tool (x : externals) (src_path : path) (o : cmake_ops) : cmake :=
  { ops := o, root := src_path, prefix_dir := x.div src_path "build",
    defs := [("BUILD_TOOLS", "OFF"), ("BUILD_SAMPLE", "OFF")] }

/-- The function `solution_path()` of directxtex.cpp. -/
def directxtex.solution_path (x : externals) (cf : conf) : path :=
  x.div (x.build_path
    (directxtex.create_cmake_tool x (directxtex.source_path x cf) .generate)) "INSTALL.vcxproj"

/-- The function `create_msbuild_tool(o)` of directxtex.cpp. -/
def directxtex.create_msbuild_tool (x : externals) (cf : conf) (o : msbuild_ops) : msbuild :=
  { ops := o, solution := directxtex.solution_path x cf }

/-- The method `directxtex::do_clean(c)`; the result is the sequence of external
calls, each of which is taken to return. -/
def directxtex.do_clean (x : externals) (cf : conf) (c : clean) : List ToolCall := Id.run do
  let mut calls : List ToolCall := []
  if is_set c .redownload then
    calls := calls ++ [.downloader (directxtex.source_url cf) .clean]
  if is_set c .reextract then
    calls := calls ++ [.delete_directory (directxtex.source_path x cf)]
    return calls
  if is_set c .reconfigure then
    calls := calls ++
      [.cmake (directxtex.create_cmake_tool x (directxtex.source_path x cf) .clean)]
  if is_set c .rebuild then
    calls := calls ++ [.msbuild (directxtex.create_msbuild_tool x cf .clean)]
  return calls

/-- The factory `mmio::version()`. -/
def mmio.version (cf : conf) : String := cf.version "mmio"

/-- The function `source_url()` of mmio.cpp. -/
def mmio.source_url (cf : conf) : url :=
  ⟨"https://github.com/Ryan-rsm-McKenzie/mmio/archive/refs/tags/" ++
    mmio.version cf ++ ".zip"⟩

/-- The function `mmio::source_path()`. -/
def mmio.source_path (x : externals) (cf : conf) : path :=
  x.div cf.build ("mmio-" ++ mmio.version cf)

/-- The function `create_cmake_tool(src_path, o)` of mmio.cpp. -/
def mmio.create_cmake_tool (x : externals) (src_path : path) (o : cmake_ops) : cmake :=
  { ops := o, root := src_path, prefix_dir := x.div src_path "build",
    defs := [("BUILD_TESTING", "OFF")] }

/-- The function `solution_path()` of mmio.cpp. -/
def mmio.solution_path (x : externals) (cf : conf) : path :=
  x.div (x.build_path
    (mmio.create_cmake_tool x (mmio.source_path x cf) .generate)) "INSTALL.vcxproj"

/-- The function `create_msbuild_tool(o)` of mmio.cpp. -/
def mmio.create_msbuild_tool (x : externals) (cf : conf) (o : msbuild_ops) : msbuild :=
  { ops := o, solution := mmio.solution_path x cf }

/-- The method `mmio::do_clean(c)`; the result is the sequence of external calls,
each of which is taken to return. -/
def mmio.do_clean (x : externals) (cf : conf) (c : clean) : List ToolCall := Id.run do
  let mut calls : List ToolCall := []
  if is_set c .redownload then
    calls := calls ++ [.downloader (mmio.source_url cf) .clean]
  if is_set c .reextract then
    calls := calls ++ [.delete_directory (mmio.source_path x cf)]
    return calls
  if is_set c .reconfigure then
    calls := calls ++ [.cmake (mmio.create_cmake_tool x (mmio.source_path x cf) .clean)]
  if is_set c .rebuild then
    calls := calls ++ [.msbuild (mmio.create_msbuild_tool x cf .clean)]
  return calls

/-- The factory `bsa::version()`. -/
def bsa.version (cf : conf) : String := cf.version "bsa"

/-- The function `source_url()` of bsa.cpp. -/
def bsa.source_url (cf : conf) : url :=
  ⟨"https://github.com/Ryan-rsm-McKenzie/bsa/archive/refs/tags/" ++
    bsa.version cf ++ ".zip"⟩

/-- The function `bsa::source_path()`. -/
def bsa.source_path (x : externals) (cf : conf) : path :=
  x.div cf.build ("bsa-" ++ bsa.version cf)

/-- The lambda `prefix` of `create_cmake_tool` in bsa.cpp, on the accumulated
`prefixPath`. -/
def bsa.add_prefix_path (prefixPath : String) (p : path) : String :=
  (if !prefixPath.isEmpty then prefixPath ++ ";" else prefixPath) ++ p.string

/-- The function `create_cmake_tool(src_path, o)` of bsa.cpp. -/
def bsa.create_cmake_tool (x : externals) (cf : conf) (src_path : path) (o : cmake_ops) :
    cmake :=
  let prefixPath := ""
  let prefixPath := bsa.add_prefix_path prefixPath (x.div (binary_io.source_path x cf) "build")
  let prefixPath := bsa.add_prefix_path prefixPath (x.div (directxtex.source_path x cf) "build")
  let prefixPath := bsa.add_prefix_path prefixPath (x.div (mmio.source_path x cf) "build")
  let prefixPath := bsa.add_prefix_path prefixPath x.zlib_source_path
  { ops := o, root := src_path, prefix_dir := x.div src_path "build",
    defs := [("BUILD_TESTING", "OFF"), ("CMAKE_PREFIX_PATH", prefixPath),
      ("LZ4_INCLUDE_DIR:PATH", (x.div x.lz4_source_path "lib").string),
      ("LZ4_LIBRARY_RELEASE:PATH",
        (x.div (x.div x.lz4_source_path "bin") "liblz4.lib").string)] }

/-- The function `solution_path()` of bsa.cpp. -/
def bsa.solution_path (x : externals) (cf : conf) : path :=
  x.div (x.build_path
    (bsa.create_cmake_tool x cf (bsa.source_path x cf) .generate)) "INSTALL.vcxproj"

/-- The function `create_msbuild_tool(o)` of bsa.cpp. -/
def bsa.create_msbuild_tool (x : externals) (cf : conf) (o : msbuild_ops) : msbuild :=
  { ops := o, solution := bsa.solution_path x cf }

/-- The method `bsa::do_clean(c)`; the result is the sequence of external calls,
each of which is taken to return. -/
def bsa.do_clean (x : externals) (cf : conf) (c : clean) : List ToolCall := Id.run do
  let mut calls : List ToolCall := []
  if is_set c .redownload then
    calls := calls ++ [.downloader (bsa.source_url cf) .clean]
  if is_set c .reextract then
    calls := calls ++ [.delete_directory (bsa.source_path x cf)]
    return calls
  if is_set c .reconfigure then
    calls := calls ++ [.cmake (bsa.create_cmake_tool x cf (bsa.source_path x cf) .clean)]
  if is_set c .rebuild then
    calls := calls ++ [.msbuild (bsa.create_msbuild_tool x cf .clean)]
  return calls

/-- The four tasks whose sources are embedded here. -/
inductive task where
  | binary_io
  | bsa
  | directxtex
  | mmio
deriving DecidableEq, Repr

/-- The virtual call `do_clean(c)` on a task. -/
def task.do_clean (x : externals) (cf : conf) : task → clean → List ToolCall
  | .binary_io => binary_io.do_clean x cf
  | .bsa => bsa.do_clean x cf
  | .directxtex => directxtex.do_clean x cf
  | .mmio => mmio.do_clean x cf

/-- The function `source_url()` of the file of a task. -/
def task.source_url (cf : conf) : task → url
  | .binary_io => binary_io.source_url cf
  | .bsa => bsa.source_url cf
  | .directxtex => directxtex.source_url cf
  | .mmio => mmio.source_url cf

/-- The method `source_path()` of a task. -/
def task.source_path (x : externals) (cf : conf) : task → path
  | .binary_io => binary_io.source_path x cf
  | .bsa => bsa.source_path x cf
  | .directxtex => directxtex.source_path x cf
  | .mmio => mmio.source_path x cf

/-- The call `create_cmake_tool(source_path(), cmake::clean)` in the file of a
task. -/
def task.cmake_clean (x : externals) (cf : conf) : task → cmake
  | .binary_io => binary_io.create_cmake_tool x (binary_io.source_path x cf) .clean
  | .bsa => bsa.create_cmake_tool x cf (bsa.source_path x cf) .clean
  | .directxtex => directxtex.create_cmake_tool x (directxtex.source_path x cf) .clean
  | .mmio => mmio.create_cmake_tool x (mmio.source_path x cf) .clean

/-- The call `create_msbuild_tool(msbuild::clean)` in the file of a task. -/
def task.msbuild_clean (x : externals) (cf : conf) : task → msbuild
  | .binary_io => binary_io.create_msbuild_tool x cf .clean
  | .bsa => bsa.create_msbuild_tool x cf .clean
  | .directxtex => directxtex.create_msbuild_tool x cf .clean
  | .mmio => mmio.create_msbuild_tool x cf .clean

/-- Whether an external call is none of: an extractor run, a cmake run in
generate mode, an msbuild run in build mode. -/
def ToolCall.is_clean_call : ToolCall → Bool
  | .downloader _ o => o == .clean
  | .extractor _ _ => false
  | .cmake t => t.ops == .clean
  | .msbuild t => t.ops == .clean
  | .delete_directory _ => true

end tasks

/-! ## Specification-side definitions and sample inputs -/

/-- The text `add_arg(k, v, f)` appends to the argument string when the
argument is not dropped, in the words of the specification: nothing when key and
value are both empty, the value after a space when only the key is empty, key and
value without separator when `nospace` applies (the flag is set or the key ends
with `=`), and key, space, value otherwise. -/
def spec_arg_text (h : process_h) (k v : String) (f : Nat) : String :=
  if k = "" ∧ v = "" then ""
  else if k = "" then " " ++ v
  else if f &&& h.nospace ≠ 0 ∨ k.data.getLast? = some '=' then " " ++ k ++ v
  else " " ++ k ++ " " ++ v

/-- A sequence of `add_arg` calls, each given as key, value and flags. -/
def process.add_args (h : process_h) (cf : conf) (p : process)
    (calls : List (String × String × Nat)) : process :=
  calls.foldl (fun q c => q.add_arg h cf c.1 c.2.1 c.2.2) p

/-- Sample enumerator values, one bit each. -/
def sample_h : process_h :=
  { noflags := 0, allow_failure := 1, stdout_is_verbose := 2, quiet := 1, nospace := 2 }

/-- A sample configuration with the given verbosity. -/
def sample_conf (verbose : Bool) : conf :=
  { verbose := verbose, dry := false, version := fun _ => "1.0", build := ⟨"C:\\build"⟩ }

/-- A sample answer of the OS to a pipe read: `ReadFile` reports
`ERROR_IO_PENDING`, the wait times out, the overlapped result is incomplete. -/
def sample_read_os : ReadOS :=
  { read_file := .failure ERROR_IO_PENDING, wait := WAIT_TIMEOUT, wait_error := 0,
    overlapped := .failure ERROR_IO_INCOMPLETE }

/-- A sample iteration in which the wait on the process handle is signalled and
the child has exited with code `c`. -/
def sample_signalled (c : Nat) : JoinOS :=
  { interrupt_called := false, wait := WAIT_OBJECT_0, exit_code := c,
    stdout_os := sample_read_os, stderr_os := sample_read_os, pid := 4242, last_error := 0 }

/-- A sample iteration in which the wait on the process handle times out. -/
def sample_timeout (interrupt_called : Bool) (pid : Nat) : JoinOS :=
  { interrupt_called := interrupt_called, wait := WAIT_TIMEOUT, exit_code := 0,
    stdout_os := sample_read_os, stderr_os := sample_read_os, pid := pid, last_error := 0 }

/-- A sample iteration in which a pipe read fails with `ERROR_ACCESS_DENIED`. -/
def sample_pipe_failure : JoinOS :=
  { interrupt_called := false, wait := WAIT_TIMEOUT, exit_code := 0,
    stdout_os := { sample_read_os with read_file := .failure 5 },
    stderr_os := sample_read_os, pid := 4242, last_error := 0 }

/-- A sample process as `do_run` leaves it: binary `cmd.exe`, the given name and
flags, and a process handle. -/
def sample_spawned (name : String) (flags : Nat) : process :=
  { process.init sample_h with
    name_ := name, bin_ := ⟨"cmd.exe"⟩, cmd_ := " /C exit", flags_ := flags,
    impl_ := { handle := some 1, interrupt := false,
               stdout_pipe := async_pipe.init, stderr_pipe := async_pipe.init } }

/-! ## Theorems: process builder -/

theorem isEmpty_eq_false_of_ne {s : String} (hs : s ≠ "") : s.isEmpty = false := by
  cases hb : s.isEmpty
  · rfl
  · exact absurd ((String.isEmpty_iff s).1 hb) hs

theorem isEmpty_eq_true_of_eq {s : String} (hs : s = "") : s.isEmpty = true := by
  subst hs; rfl

theorem back_eq_iff_getLast {k : String} (hk : k ≠ "") (c : Char) :
    k.back = c ↔ k.data.getLast? = some c := by
  rw [String.back_eq, List.getLastD_eq_getLast?]
  obtain ⟨l⟩ := k
  have hl : l ≠ [] := fun e => hk (by subst e; rfl)
  rw [List.getLast?_eq_getLast l hl]
  simp

theorem append_ne_empty_right (s t : String) (ht : t ≠ "") : s ++ t ≠ "" := by
  intro e
  have hl := congrArg String.length e
  rw [String.length_append] at hl
  have : t.length = 0 := by
    have h0 : ("" : String).length = 0 := rfl
    omega
  exact ht (by
    obtain ⟨l⟩ := t
    have : l = [] := List.length_eq_zero.1 this
    subst this; rfl)

theorem add_arg_included (h : process_h) (cf : conf) (p : process) (k v : String) (f : Nat)
    (hd : ((f &&& h.quiet != 0) && cf.verbose) = false) :
    p.add_arg h cf k v f = { p with cmd_ := p.cmd_ ++ spec_arg_text h k v f } := by
  unfold process.add_arg spec_arg_text
  rw [hd]
  by_cases hk : k = ""
  · by_cases hv : v = ""
    · subst hk; subst hv
      simp [isEmpty_eq_true_of_eq]
    · subst hk
      simp [isEmpty_eq_true_of_eq, isEmpty_eq_false_of_ne hv, hv]
  · by_cases hn : f &&& h.nospace = 0
    · by_cases hb : k.back = '='
      · have hg := (back_eq_iff_getLast hk '=').1 hb
        simp [isEmpty_eq_false_of_ne hk, hk, hn, hb, hg]
      · have hg : ¬ k.data.getLast? = some '=' := fun e => hb ((back_eq_iff_getLast hk '=').2 e)
        simp [isEmpty_eq_false_of_ne hk, hk, hn, hb, hg]
    · simp [isEmpty_eq_false_of_ne hk, hk, hn]

theorem make_cmd_of_raw (h : process_h) (cf : conf) (p : process) (hr : p.raw_ ≠ "") :
    p.make_cmd h cf = p.raw_ := by
  simp [process.make_cmd, isEmpty_eq_false_of_ne hr]

theorem add_arg_raw (h : process_h) (cf : conf) (p : process) (k v : String) (f : Nat) :
    (p.add_arg h cf k v f).raw_ = p.raw_ := by
  unfold process.add_arg
  repeat' split
  all_goals rfl

theorem add_args_raw (h : process_h) (cf : conf) (calls : List (String × String × Nat)) :
    ∀ p : process, (p.add_args h cf calls).raw_ = p.raw_ := by
  induction calls with
  | nil => intro p; rfl
  | cons c rest ih =>
    intro p
    show ((p.add_arg h cf c.1 c.2.1 c.2.2).add_args h cf rest).raw_ = p.raw_
    rw [ih, add_arg_raw]

theorem add_arg_dropped (h : process_h) (cf : conf) (p : process) (k v : String) (f : Nat)
    (hd : ((f &&& h.quiet != 0) && cf.verbose) = true) :
    p.add_arg h cf k v f = p := by
  unfold process.add_arg
  rw [hd]
  rfl

theorem add_arg_eq (h : process_h) (cf : conf) (p : process) (k v : String) (f : Nat) :
    p.add_arg h cf k v f =
      { p with cmd_ := p.cmd_ ++
          (if ((f &&& h.quiet != 0) && cf.verbose) = true then "" else spec_arg_text h k v f) } := by
  cases hd : ((f &&& h.quiet != 0) && cf.verbose)
  · rw [add_arg_included h cf p k v f hd]
    simp
  · rw [add_arg_dropped h cf p k v f hd]
    simp

theorem make_cmd_congr (h : process_h) (cf : conf) (p q : process)
    (hr : p.raw_ = q.raw_) (hb : p.bin_ = q.bin_) (hc : p.cmd_ = q.cmd_)
    (hf : p.flags_ = q.flags_) : p.make_cmd h cf = q.make_cmd h cf := by
  unfold process.make_cmd
  rw [hr, hb, hc, hf]

theorem add_args_congr (h : process_h) (cf : conf) (calls : List (String × String × Nat)) :
    ∀ p q : process, p.raw_ = q.raw_ → p.bin_ = q.bin_ → p.cmd_ = q.cmd_ →
      p.flags_ = q.flags_ →
      (p.add_args h cf calls).make_cmd h cf = (q.add_args h cf calls).make_cmd h cf := by
  induction calls with
  | nil => intro p q hr hb hc hf; exact make_cmd_congr h cf p q hr hb hc hf
  | cons c rest ih =>
    intro p q hr hb hc hf
    show ((p.add_arg h cf c.1 c.2.1 c.2.2).add_args h cf rest).make_cmd h cf =
      ((q.add_arg h cf c.1 c.2.1 c.2.2).add_args h cf rest).make_cmd h cf
    apply ih
    · rw [add_arg_eq h cf p, add_arg_eq h cf q]; exact hr
    · rw [add_arg_eq h cf p, add_arg_eq h cf q]; exact hb
    · rw [add_arg_eq h cf p, add_arg_eq h cf q]; show p.cmd_ ++ _ = q.cmd_ ++ _; rw [hc]
    · rw [add_arg_eq h cf p, add_arg_eq h cf q]; exact hf

theorem spec_arg_text_length_pos (h : process_h) (k v : String) (f : Nat)
    (hkv : ¬ (k = "" ∧ v = "")) : 0 < (spec_arg_text h k v f).length := by
  unfold spec_arg_text
  rw [if_neg hkv]
  have h1 : (" " : String).length = 1 := rfl
  repeat' split
  all_goals simp only [String.length_append, h1]
  all_goals omega

theorem make_cmd_length (h : process_h) (cf : conf) (p : process) (t : String)
    (hr : p.raw_ = "") :
    (process.make_cmd h cf { p with cmd_ := p.cmd_ ++ t }).length =
      (p.make_cmd h cf).length + t.length := by
  have he : p.raw_.isEmpty = true := isEmpty_eq_true_of_eq hr
  simp only [process.make_cmd, he, Bool.not_true, Bool.false_eq_true, if_false]
  generalize (p.flags_ &&& h.stdout_is_verbose != 0) = b1
  generalize cf.verbose = b2
  cases b1 <;> cases b2 <;> simp [String.length_append] <;> omega

/-- C6: for arg flags `f` without `quiet`, `add_arg(k, v, f)` changes nothing but
the argument string, which becomes `cmd ++ t`, where `t` is empty when `k` and
`v` are both empty (so that `make_cmd()` is unchanged), `" " ++ v` when only `k`
is empty, `" " ++ k ++ v` when `k` is non-empty and `nospace` is in `f` or `k`
ends with `=`, and `" " ++ k ++ " " ++ v` otherwise. -/
theorem add_arg_without_quiet (h : process_h) (cf : conf) (p : process) (k v : String)
    (f : Nat) (hq : f &&& h.quiet = 0) :
    (∃ t : String, p.add_arg h cf k v f = { p with cmd_ := p.cmd_ ++ t } ∧
      (k = "" → v = "" → t = "") ∧
      (k = "" → v ≠ "" → t = " " ++ v) ∧
      (k ≠ "" → (f &&& h.nospace ≠ 0 ∨ k.data.getLast? = some '=') → t = " " ++ k ++ v) ∧
      (k ≠ "" → ¬ (f &&& h.nospace ≠ 0 ∨ k.data.getLast? = some '=') →
        t = " " ++ k ++ " " ++ v)) ∧
    (k = "" → v = "" → (p.add_arg h cf k v f).make_cmd h cf = p.make_cmd h cf) := by
  have hd : ((f &&& h.quiet != 0) && cf.verbose) = false := by simp [hq]
  have he := add_arg_included h cf p k v f hd
  refine ⟨⟨spec_arg_text h k v f, he, ?_, ?_, ?_, ?_⟩, ?_⟩
  · intro hk hv; simp [spec_arg_text, hk, hv]
  · intro hk hv; simp [spec_arg_text, hk, hv]
  · intro hk hn; simp only [spec_arg_text, hk, false_and, if_false, hn, if_true]
  · intro hk hn; simp only [spec_arg_text, hk, false_and, if_false, hn]
  · intro hk hv
    rw [he]
    have ht : spec_arg_text h k v f = "" := by simp [spec_arg_text, hk, hv]
    rw [ht, String.append_empty]

/-- Witness for C6: on a fresh process, `add_arg("-o", "x", noargflags)` yields the
argument string `" -o x"`. -/
theorem add_arg_without_quiet_witness :
    ((process.init sample_h).add_arg sample_h (sample_conf false) "-o" "x" 0).cmd_ = " -o x" := by
  obtain ⟨⟨t, he, _, _, _, h4⟩, _⟩ :=
    add_arg_without_quiet sample_h (sample_conf false) (process.init sample_h) "-o" "x" 0
      (by decide)
  rw [he, h4 (by decide) (by decide)]
  rfl

/-- C1, refuted as stated: with `verbose` off, a `quiet` argument is appended and
`make_cmd()` changes; with `verbose` on, the same call leaves `make_cmd()` as it
was. -/
theorem add_arg_quiet_counterexample :
    ((process.init sample_h).add_arg sample_h (sample_conf false) "--quiet" "" 1).make_cmd
        sample_h (sample_conf false) = "\"\"  --quiet " ∧
    ((process.init sample_h).add_arg sample_h (sample_conf false) "--quiet" "" 1).make_cmd
        sample_h (sample_conf false) ≠
      (process.init sample_h).make_cmd sample_h (sample_conf false) ∧
    ((process.init sample_h).add_arg sample_h (sample_conf true) "--quiet" "" 1).make_cmd
        sample_h (sample_conf true) =
      (process.init sample_h).make_cmd sample_h (sample_conf true) := by
  decide

/-- C1, amended: for arg flags `f` that include `quiet`, `add_arg(k, v, f)` leaves
the process, hence `make_cmd()`, unchanged when `conf::verbose()` is true; when
`conf::verbose()` is false it appends the argument to the argument string exactly
as without `quiet`, and for `k`, `v` not both empty and no raw override
`make_cmd()` changes. Two processes that agree on raw command, binary, argument
string and flags render the same command after the same sequence of `add_arg`
calls under the same configuration. -/
theorem add_arg_quiet (h : process_h) (cf : conf) (p : process) (k v : String) (f : Nat)
    (hq : f &&& h.quiet ≠ 0) :
    (cf.verbose = true →
      p.add_arg h cf k v f = p ∧ (p.add_arg h cf k v f).make_cmd h cf = p.make_cmd h cf) ∧
    (cf.verbose = false →
      p.add_arg h cf k v f = { p with cmd_ := p.cmd_ ++ spec_arg_text h k v f } ∧
      (¬ (k = "" ∧ v = "") → p.raw_ = "" →
        (p.add_arg h cf k v f).make_cmd h cf ≠ p.make_cmd h cf)) ∧
    (∀ (calls : List (String × String × Nat)) (q : process),
      p.raw_ = q.raw_ → p.bin_ = q.bin_ → p.cmd_ = q.cmd_ → p.flags_ = q.flags_ →
      (p.add_args h cf calls).make_cmd h cf = (q.add_args h cf calls).make_cmd h cf) := by
  refine ⟨?_, ?_, ?_⟩
  · intro hv
    have hd : ((f &&& h.quiet != 0) && cf.verbose) = true := by simp [hq, hv]
    have he := add_arg_dropped h cf p k v f hd
    exact ⟨he, by rw [he]⟩
  · intro hv
    have hd : ((f &&& h.quiet != 0) && cf.verbose) = false := by simp [hv]
    have he := add_arg_included h cf p k v f hd
    refine ⟨he, ?_⟩
    intro hkv hr e
    rw [he] at e
    have hl := congrArg String.length e
    rw [make_cmd_length h cf p _ hr] at hl
    have := spec_arg_text_length_pos h k v f hkv
    omega
  · intro calls q hr hb hc hf
    exact add_args_congr h cf calls p q hr hb hc hf

/-- Witness for amended C1: `add_arg("--quiet", "", quiet)` on a fresh process
with `verbose` on. -/
theorem add_arg_quiet_witness :
    (process.init sample_h).add_arg sample_h (sample_conf true) "--quiet" "" 1 =
      process.init sample_h :=
  ((add_arg_quiet sample_h (sample_conf true) (process.init sample_h) "--quiet" "" 1
    (by decide)).1 rfl).1

/-- C3, refuted as stated: for the empty string, `make_cmd()` of `process::raw("")`
is the three characters `"" ` (quoted empty binary and a space), not the empty
string. -/
theorem raw_empty_counterexample :
    (process.raw sample_h "").make_cmd sample_h (sample_conf false) = "\"\" " ∧
    (process.raw sample_h "").make_cmd sample_h (sample_conf false) ≠ "" := by
  decide

/-- C3, amended: for every non-empty string `s`, `make_cmd()` of the process
returned by `process::raw(s)` equals `s`, also after the binary and the flags are
set and arguments are added, under every configuration; more generally every
process whose raw command is `s` renders `s`. -/
theorem make_cmd_raw (h : process_h) (cf : conf) (s : String) (hs : s ≠ "") :
    (process.raw h s).make_cmd h cf = s ∧
    (∀ (b : path) (fl : Nat) (calls : List (String × String × Nat)) (cf0 : conf),
      ((((process.raw h s).binary b).flags fl).add_args h cf0 calls).make_cmd h cf = s) ∧
    (∀ p : process, p.raw_ = s → p.make_cmd h cf = s) := by
  have hg : ∀ p : process, p.raw_ = s → p.make_cmd h cf = s := by
    intro p hp
    rw [make_cmd_of_raw h cf p (by rw [hp]; exact hs), hp]
  refine ⟨hg _ rfl, ?_, hg⟩
  intro b fl calls cf0
  apply hg
  rw [add_args_raw]
  rfl

/-- Witness for amended C3: the raw command `echo hello`. -/
theorem make_cmd_raw_witness :
    (process.raw sample_h "echo hello").make_cmd sample_h (sample_conf false) = "echo hello" :=
  (make_cmd_raw sample_h (sample_conf false) "echo hello" (by decide)).1

/-- C7: without a raw command override, `make_cmd()` is the quoted binary, a
space and the argument string, followed by ` > NUL` exactly when
`stdout_is_verbose` is set in the flags and `conf::verbose()` is false; and after
`a.pipe_into(p)`, `a.make_cmd()` is the former `a.make_cmd()`, then ` | `, then
`p.make_cmd()`, whatever the configuration at the later call. -/
theorem make_cmd_no_raw (h : process_h) (cf : conf) (p : process) (hr : p.raw_ = "") :
    (p.flags_ &&& h.stdout_is_verbose ≠ 0 ∧ cf.verbose = false →
      p.make_cmd h cf = "\"" ++ p.bin_.string ++ "\" " ++ p.cmd_ ++ " > NUL") ∧
    (¬ (p.flags_ &&& h.stdout_is_verbose ≠ 0 ∧ cf.verbose = false) →
      p.make_cmd h cf = "\"" ++ p.bin_.string ++ "\" " ++ p.cmd_) ∧
    (∀ (a q : process) (cf0 : conf),
      (a.pipe_into h cf q).make_cmd h cf0 = a.make_cmd h cf ++ " | " ++ q.make_cmd h cf) := by
  have he : p.raw_.isEmpty = true := isEmpty_eq_true_of_eq hr
  refine ⟨?_, ?_, ?_⟩
  · rintro ⟨hf, hv⟩
    simp [process.make_cmd, he, hf, hv]
  · intro hn
    simp only [process.make_cmd, he, Bool.not_true, Bool.false_eq_true, if_false]
    by_cases hf : p.flags_ &&& h.stdout_is_verbose = 0
    · simp [hf]
    · have hv : cf.verbose = true := by
        cases hc : cf.verbose
        · exact absurd ⟨hf, hc⟩ hn
        · rfl
      simp [hv]
  · intro a q cf0
    apply make_cmd_of_raw
    show a.make_cmd h cf ++ " | " ++ q.make_cmd h cf ≠ ""
    rw [String.append_assoc]
    apply append_ne_empty_right
    intro e
    have hl := congrArg String.length e
    rw [String.length_append] at hl
    have h3 : (" | " : String).length = 3 := rfl
    have h0 : ("" : String).length = 0 := rfl
    omega

/-- Witness for C7: binary `cmake` with argument string ` -G x`, `stdout_is_verbose`
set, `verbose` off. -/
theorem make_cmd_no_raw_witness :
    process.make_cmd sample_h (sample_conf false)
      { process.init sample_h with bin_ := ⟨"cmake"⟩, cmd_ := " -G x", flags_ := 2 } =
      "\"cmake\"  -G x > NUL" :=
  (make_cmd_no_raw sample_h (sample_conf false)
    { process.init sample_h with bin_ := ⟨"cmake"⟩, cmd_ := " -G x", flags_ := 2 } rfl).1
    ⟨by decide, rfl⟩

/-- C8: a path argument is rendered as its string between double quotes for both
values of `force_quote`; a plain string or a URL is rendered unchanged when
`force_quote` is false and between double quotes, with the content untouched,
when it is true. -/
theorem arg_to_string_spec (p : path) (u : url) (s : String) (force_quote : Bool) :
    process.arg_to_string_path p force_quote = "\"" ++ p.string ++ "\"" ∧
    process.arg_to_string s false = s ∧
    process.arg_to_string s true = "\"" ++ s ++ "\"" ∧
    process.arg_to_string_url u false = u.string ∧
    process.arg_to_string_url u true = "\"" ++ u.string ++ "\"" :=
  ⟨rfl, rfl, rfl, rfl, rfl⟩

/-! ## Theorems: task clean dispatch -/

/-- C4: for each of the tasks binary_io, bsa, directxtex and mmio and every clean
bitset `c`, the external calls of `do_clean(c)` are, in order: one downloader run
in clean mode iff `redownload` is in `c`; then, if `reextract` is in `c`, one
delete of `source_path()` and nothing more; otherwise one cmake run in clean mode
iff `reconfigure` is in `c`, then one msbuild run in clean mode iff `rebuild` is
in `c`. The empty bitset makes no call, `{redownload}` makes exactly the
downloader-clean call, and no call is ever an extractor run, a cmake generate or
an msbuild build. -/
theorem do_clean_calls (x : tasks.externals) (cf : conf) (t : tasks.task) (c : tasks.clean) :
    t.do_clean x cf c =
      (if c.redownload then [tasks.ToolCall.downloader (t.source_url cf) .clean] else []) ++
      (if c.reextract then [tasks.ToolCall.delete_directory (t.source_path x cf)]
       else
        (if c.reconfigure then [tasks.ToolCall.cmake (t.cmake_clean x cf)] else []) ++
        (if c.rebuild then [tasks.ToolCall.msbuild (t.msbuild_clean x cf)] else [])) ∧
    (t.cmake_clean x cf).ops = .clean ∧
    (t.msbuild_clean x cf).ops = .clean ∧
    t.do_clean x cf ⟨false, false, false, false⟩ = [] ∧
    t.do_clean x cf ⟨true, false, false, false⟩ =
      [tasks.ToolCall.downloader (t.source_url cf) .clean] ∧
    (∀ rc rb : Bool, t.do_clean x cf ⟨false, true, rc, rb⟩ =
      [tasks.ToolCall.delete_directory (t.source_path x cf)]) ∧
    (t.do_clean x cf c).all tasks.ToolCall.is_clean_call = true := by
  refine ⟨?_, ?_, ?_, ?_, ?_, ?_, ?_⟩
  · obtain ⟨a, b, d, e⟩ := c
    cases t <;> cases a <;> cases b <;> cases d <;> cases e <;> rfl
  · cases t <;> rfl
  · cases t <;> rfl
  · cases t <;> rfl
  · cases t <;> rfl
  · intro rc rb
    cases t <;> cases rc <;> cases rb <;> rfl
  · obtain ⟨a, b, d, e⟩ := c
    cases t <;> cases a <;> cases b <;> cases d <;> cases e <;> rfl

/-! ## Theorems: async pipe -/

theorem try_read_spec (a : async_pipe) (os : ReadOS) :
    OsCall.ReadFile ∈ (a.try_read os).calls ∧
    ((a.try_read os).pipe.pending_ = a.pending_ ∨
      ((a.try_read os).pipe.pending_ = true ∧ os.read_file = .failure ERROR_IO_PENDING)) := by
  unfold async_pipe.try_read
  split
  · rename_i e he
    split_ifs with h1 h2
    · subst h1; simp [he]
    · simp
    · simp
  · simp

theorem check_pending_spec (a : async_pipe) (os : ReadOS) :
    (∀ c ∈ (a.check_pending os).calls,
      c = .WaitForSingleObject ∨ c = .GetOverlappedResult ∨ c = .ResetEvent ∨
        c = .GetLastError) ∧
    ((a.check_pending os).pipe.pending_ = a.pending_ ∨
      ((a.check_pending os).pipe.pending_ = false ∧ os.wait ≠ WAIT_FAILED ∧
        ∃ bytes, os.overlapped = .success bytes ∧
          (a.check_pending os).value = .ok bytes ∧
          OsCall.ResetEvent ∈ (a.check_pending os).calls)) := by
  unfold async_pipe.check_pending
  by_cases hw : os.wait = WAIT_FAILED
  · simp [hw]
  · simp only [hw, if_false]
    split
    · rename_i e he
      split_ifs <;> simp
    · rename_i bytes he
      simp [he, hw]

theorem read_step_spec (a : async_pipe) (os : ReadOS) :
    (OsCall.ReadFile ∈ (a.read os).calls → a.pending_ = false) ∧
    (a.pending_ = false → OsCall.ReadFile ∈ (a.read os).calls) ∧
    (a.pending_ = true → ∀ c ∈ (a.read os).calls,
      c = .WaitForSingleObject ∨ c = .GetOverlappedResult ∨ c = .ResetEvent ∨
        c = .GetLastError) ∧
    (a.pending_ = false → (a.read os).pipe.pending_ = true →
      os.read_file = .failure ERROR_IO_PENDING) ∧
    (a.pending_ = true → (a.read os).pipe.pending_ = false →
      os.wait ≠ WAIT_FAILED ∧ ∃ bytes, os.overlapped = .success bytes ∧
        (a.read os).value = .ok bytes ∧ OsCall.ResetEvent ∈ (a.read os).calls) := by
  by_cases hp : a.pending_ = true
  · have hr : a.read os = a.check_pending os := by simp [async_pipe.read, hp]
    have hc := check_pending_spec a os
    rw [hr]
    refine ⟨?_, ?_, fun _ => hc.1, ?_, ?_⟩
    · intro hm
      rcases hc.1 _ hm with h1 | h1 | h1 | h1 <;> cases h1
    · intro hf; rw [hf] at hp; cases hp
    · intro hf; rw [hf] at hp; cases hp
    · intro _ hn
      rcases hc.2 with h1 | h1
      · rw [hp] at h1; rw [h1] at hn; cases hn
      · exact h1.2
  · have hp : a.pending_ = false := by simpa using hp
    have hr : a.read os = a.try_read os := by simp [async_pipe.read, hp]
    have ht := try_read_spec a os
    rw [hr]
    refine ⟨fun _ => hp, fun _ => ht.1, ?_, ?_, ?_⟩
    · intro hf; rw [hf] at hp; cases hp
    · intro _ hn
      rcases ht.2 with h1 | h1
      · rw [hp] at h1; rw [h1] at hn; cases hn
      · exact h1.2
    · intro hf; rw [hf] at hp; cases hp

theorem reads_cons_error (a : async_pipe) (os : ReadOS) (rest : List ReadOS) (b : Bail)
    (hv : (a.read os).value = .error b) :
    a.reads (os :: rest) = [⟨a, os, a.read os⟩] := by
  simp only [async_pipe.reads, hv]

theorem reads_cons_ok (a : async_pipe) (os : ReadOS) (rest : List ReadOS) (v : String)
    (hv : (a.read os).value = .ok v) :
    a.reads (os :: rest) = ⟨a, os, a.read os⟩ :: async_pipe.reads (a.read os).pipe rest := by
  simp only [async_pipe.reads, hv]

theorem reads_head (trace : List ReadOS) (a : async_pipe) :
    ∀ st ∈ (a.reads trace).head?, st.before = a := by
  cases trace with
  | nil => intro st hst; simp [async_pipe.reads] at hst
  | cons os rest =>
    intro st hst
    cases hv : (a.read os).value with
    | error b =>
      rw [reads_cons_error a os rest b hv] at hst
      simp at hst; rw [← hst]
    | ok v =>
      rw [reads_cons_ok a os rest v hv] at hst
      simp at hst; rw [← hst]

theorem reads_chain (trace : List ReadOS) :
    ∀ a : async_pipe,
      List.Chain' (fun s1 s2 : ReadStep => s2.before = s1.result.pipe) (a.reads trace) := by
  induction trace with
  | nil => intro a; simp [async_pipe.reads]
  | cons os rest ih =>
    intro a
    cases hv : (a.read os).value with
    | error b =>
      rw [reads_cons_error a os rest b hv]
      exact List.chain'_singleton _
    | ok v =>
      rw [reads_cons_ok a os rest v hv, List.chain'_cons']
      exact ⟨fun y hy => reads_head rest _ y hy, ih _⟩

theorem reads_steps (trace : List ReadOS) :
    ∀ a : async_pipe, ∀ st ∈ a.reads trace, st.result = st.before.read st.os := by
  induction trace with
  | nil => intro a st hst; simp [async_pipe.reads] at hst
  | cons os rest ih =>
    intro a st hst
    cases hv : (a.read os).value with
    | error b =>
      rw [reads_cons_error a os rest b hv] at hst
      simp at hst; rw [hst]
    | ok v =>
      rw [reads_cons_ok a os rest v hv] at hst
      simp at hst
      rcases hst with hst | hst
      · rw [hst]
      · exact ih _ st hst

theorem reads_os_prefix (trace : List ReadOS) :
    ∀ a : async_pipe, (a.reads trace).map ReadStep.os <+: trace := by
  induction trace with
  | nil => intro a; simp [async_pipe.reads]
  | cons os rest ih =>
    intro a
    cases hv : (a.read os).value with
    | error b =>
      rw [reads_cons_error a os rest b hv]
      simp [List.prefix_cons_iff]
    | ok v =>
      rw [reads_cons_ok a os rest v hv]
      simp [List.prefix_cons_iff, ih]

/-- C9: in every sequence of `read()` calls on a pipe, under every sequence of OS
outcomes, each call starts from the flag the previous one left; a `ReadFile` is
issued only by a call that finds `pending` false; a call that finds `pending`
true does nothing but wait on the event, query the overlapped result, and (on
success) reset the event or (on failure) read the error code; `pending` turns
true only when `ReadFile` fails with `ERROR_IO_PENDING`; and it turns false only
when `GetOverlappedResult` succeeds and the completion is returned. -/
theorem read_only_when_idle (a : async_pipe) (trace : List ReadOS) :
    List.Chain' (fun s1 s2 : ReadStep => s2.before = s1.result.pipe) (a.reads trace) ∧
    (∀ st ∈ (a.reads trace).head?, st.before = a) ∧
    (a.reads trace).map ReadStep.os <+: trace ∧
    ∀ st ∈ a.reads trace,
      st.result = st.before.read st.os ∧
      (OsCall.ReadFile ∈ st.result.calls → st.before.pending_ = false) ∧
      (st.before.pending_ = true → ∀ c ∈ st.result.calls,
        c = .WaitForSingleObject ∨ c = .GetOverlappedResult ∨ c = .ResetEvent ∨
          c = .GetLastError) ∧
      (st.before.pending_ = false → st.result.pipe.pending_ = true →
        st.os.read_file = .failure ERROR_IO_PENDING) ∧
      (st.before.pending_ = true → st.result.pipe.pending_ = false →
        st.os.wait ≠ WAIT_FAILED ∧ ∃ bytes, st.os.overlapped = .success bytes ∧
          st.result.value = .ok bytes ∧ OsCall.ResetEvent ∈ st.result.calls) := by
  refine ⟨reads_chain trace a, reads_head trace a, reads_os_prefix trace a, ?_⟩
  intro st hst
  have he := reads_steps trace a st hst
  have hs := read_step_spec st.before st.os
  rw [he]
  exact ⟨rfl, hs.1, hs.2.2.1, hs.2.2.2.1, hs.2.2.2.2⟩

/-! ## Theorems: join loop -/

theorem ctrl_breaks_append (l1 l2 : List OsCall) :
    ctrl_breaks (l1 ++ l2) = ctrl_breaks l1 + ctrl_breaks l2 := by
  simp [ctrl_breaks, List.filter_append]

theorem ctrl_breaks_read (a : async_pipe) (os : ReadOS) :
    ctrl_breaks (a.read os).calls = 0 := by
  have hs := read_step_spec a os
  have key : ∀ l : List OsCall, (∀ c ∈ l, c = .ReadFile ∨ c = .WaitForSingleObject ∨
      c = .GetOverlappedResult ∨ c = .ResetEvent ∨ c = .GetLastError) → ctrl_breaks l = 0 := by
    intro l hl
    simp only [ctrl_breaks, List.length_eq_zero, List.filter_eq_nil_iff]
    intro c hc
    rcases hl c hc with h1 | h1 | h1 | h1 | h1 <;> subst h1 <;> simp
  apply key
  intro c hc
  by_cases hp : a.pending_ = true
  · exact Or.inr (hs.2.2.1 hp c hc)
  · have hp : a.pending_ = false := by simpa using hp
    have hr : a.read os = a.try_read os := by simp [async_pipe.read, hp]
    rw [hr] at hc
    unfold async_pipe.try_read at hc
    split at hc
    · split_ifs at hc <;> simp at hc <;> rcases hc with h1 | h1 <;> simp [h1]
    · simp at hc; simp [hc]

theorem ctrl_breaks_cons (c : OsCall) (l : List OsCall) :
    ctrl_breaks (c :: l) =
      (match c with
        | .GenerateConsoleCtrlEvent _ => 1
        | _ => 0) + ctrl_breaks l := by
  cases c <;> simp [ctrl_breaks, List.filter_cons]
  omega

theorem ctrl_breaks_nil : ctrl_breaks [] = 0 := rfl

theorem join_iter_ctrl (h : process_h) (cf : conf) (p : process) (i : Bool)
    (log : List OsCall) (os : JoinOS) :
    ((p.join_iter h cf i log os).interrupted = i ∧
      ctrl_breaks (p.join_iter h cf i log os).log = ctrl_breaks log) ∨
    (i = false ∧ (p.join_iter h cf i log os).interrupted = true ∧
      (p.join_iter h cf i log os).outcome = none ∧
      ctrl_breaks (p.join_iter h cf i log os).log = ctrl_breaks log + 1) := by
  unfold process.join_iter
  dsimp only
  repeat' split
  all_goals simp_all [ctrl_breaks_append, ctrl_breaks_read, ctrl_breaks_cons, ctrl_breaks_nil]

theorem join_loop_nil (h : process_h) (cf : conf) (p : process) (i : Bool)
    (log : List OsCall) : p.join_loop h cf i log [] = ⟨p, i, log, none⟩ := rfl

theorem join_loop_cons_some (h : process_h) (cf : conf) (p : process) (i : Bool)
    (log : List OsCall) (os : JoinOS) (rest : List JoinOS) (o : Outcome)
    (ho : (p.join_iter h cf i log os).outcome = some o) :
    p.join_loop h cf i log (os :: rest) = p.join_iter h cf i log os := by
  simp only [process.join_loop, ho]

theorem join_loop_cons_none (h : process_h) (cf : conf) (p : process) (i : Bool)
    (log : List OsCall) (os : JoinOS) (rest : List JoinOS)
    (ho : (p.join_iter h cf i log os).outcome = none) :
    p.join_loop h cf i log (os :: rest) =
      process.join_loop h cf (p.join_iter h cf i log os).p
        (p.join_iter h cf i log os).interrupted (p.join_iter h cf i log os).log rest := by
  simp only [process.join_loop, ho]

theorem join_loop_ctrl (h : process_h) (cf : conf) (trace : List JoinOS) :
    ∀ (p : process) (i : Bool) (log : List OsCall),
      (i = true → ctrl_breaks (p.join_loop h cf i log trace).log = ctrl_breaks log) ∧
      ctrl_breaks (p.join_loop h cf i log trace).log ≤ ctrl_breaks log + 1 := by
  induction trace with
  | nil => intro p i log; simp [join_loop_nil]
  | cons os rest ih =>
    intro p i log
    have hc := join_iter_ctrl h cf p i log os
    cases ho : (p.join_iter h cf i log os).outcome with
    | some o =>
      rw [join_loop_cons_some h cf p i log os rest o ho]
      rcases hc with ⟨_, h2⟩ | ⟨_, _, h3, _⟩
      · rw [h2]; exact ⟨fun _ => rfl, Nat.le_succ _⟩
      · rw [ho] at h3; cases h3
    | none =>
      rw [join_loop_cons_none h cf p i log os rest ho]
      have hi := ih (p.join_iter h cf i log os).p (p.join_iter h cf i log os).interrupted
        (p.join_iter h cf i log os).log
      rcases hc with ⟨h1, h2⟩ | ⟨h1, h2, _, h4⟩
      · rw [h1, h2] at hi; rw [h1]; exact hi
      · refine ⟨fun ht => ?_, ?_⟩
        · rw [h1] at ht; cases ht
        · rw [hi.1 h2, h4]

/-- C5: during one `join()`, whatever the wait results, the pipe outcomes and the
moments at which `interrupt()` is called, `GenerateConsoleCtrlEvent` is called at
most once; and from an iteration on at which the interrupt has been delivered
(`interrupted` is true), the loop never calls it again. -/
theorem join_ctrl_break_at_most_once (h : process_h) (cf : conf) (p : process)
    (trace : List JoinOS) :
    ctrl_breaks (p.join h cf trace).log ≤ 1 ∧
    (∀ (q : process) (log : List OsCall) (later : List JoinOS),
      ctrl_breaks (q.join_loop h cf true log later).log = ctrl_breaks log) := by
  refine ⟨?_, fun q log later => (join_loop_ctrl h cf later q true log).1 rfl⟩
  unfold process.join
  split
  · exact Nat.zero_le _
  · have := (join_loop_ctrl h cf trace p false []).2
    simpa [ctrl_breaks_nil] using this

theorem make_name_congr (h : process_h) (cf : conf) (p q : process)
    (hn : p.name_ = q.name_) (hr : p.raw_ = q.raw_) (hb : p.bin_ = q.bin_)
    (hc : p.cmd_ = q.cmd_) (hf : p.flags_ = q.flags_) :
    p.make_name h cf = q.make_name h cf := by
  unfold process.make_name
  rw [hn, make_cmd_congr h cf p q hr hb hc hf]

theorem join_iter_config (h : process_h) (cf : conf) (p : process) (i : Bool)
    (log : List OsCall) (os : JoinOS) :
    (p.join_iter h cf i log os).p.name_ = p.name_ ∧
    (p.join_iter h cf i log os).p.raw_ = p.raw_ ∧
    (p.join_iter h cf i log os).p.bin_ = p.bin_ ∧
    (p.join_iter h cf i log os).p.cmd_ = p.cmd_ ∧
    (p.join_iter h cf i log os).p.flags_ = p.flags_ := by
  unfold process.join_iter
  dsimp only
  repeat' split
  all_goals simp [process.release, process.interrupt]

theorem join_iter_running (h : process_h) (cf : conf) (p : process) (i : Bool)
    (log : List OsCall) (os : JoinOS) :
    (p.join_iter h cf i log os).outcome = none →
    (p.join_iter h cf i log os).p.impl_.handle = p.impl_.handle ∧
    (p.join_iter h cf i log os).p.impl_.interrupt =
      (p.impl_.interrupt || os.interrupt_called) ∧
    (p.join_iter h cf i log os).p.code_ = p.code_ := by
  unfold process.join_iter
  dsimp only
  repeat' split
  all_goals simp_all [process.release, process.interrupt]

theorem join_iter_handle (h : process_h) (cf : conf) (p : process) (i : Bool)
    (log : List OsCall) (os : JoinOS) :
    ((p.join_iter h cf i log os).outcome = some .returned →
      (p.join_iter h cf i log os).p.impl_.handle = none) ∧
    (∀ b, (p.join_iter h cf i log os).outcome = some (.bailed b) →
      (p.join_iter h cf i log os).p.impl_.handle = none) ∧
    (∀ b, (p.join_iter h cf i log os).outcome = some (.pipe_bailed b) →
      (p.join_iter h cf i log os).p.impl_.handle = p.impl_.handle) := by
  unfold process.join_iter
  dsimp only
  repeat' split
  all_goals simp [process.release, process.interrupt]

theorem join_iter_signalled (h : process_h) (cf : conf) (p : process) (i : Bool)
    (log : List OsCall) (os : JoinOS) (hw : os.wait = WAIT_OBJECT_0) :
    (p.join_iter h cf i log os).p.code_ = os.exit_code % 2 ^ 32 ∧
    (p.join_iter h cf i log os).p.impl_.handle = none ∧
    ((p.flags_ &&& h.allow_failure ≠ 0 ∨ (p.impl_.interrupt || os.interrupt_called) = true) →
      (p.join_iter h cf i log os).outcome = some .returned) ∧
    (¬ (p.flags_ &&& h.allow_failure ≠ 0 ∨ (p.impl_.interrupt || os.interrupt_called) = true) →
      os.exit_code % 2 ^ 32 = 0 →
      (p.join_iter h cf i log os).outcome = some .returned) ∧
    (¬ (p.flags_ &&& h.allow_failure ≠ 0 ∨ (p.impl_.interrupt || os.interrupt_called) = true) →
      os.exit_code % 2 ^ 32 ≠ 0 →
      (p.join_iter h cf i log os).outcome =
        some (.bailed ⟨p.make_name h cf ++ " returned " ++ toString (os.exit_code % 2 ^ 32),
          none⟩)) := by
  unfold process.join_iter
  dsimp only
  rw [if_pos hw]
  repeat' split
  all_goals simp_all [process.release, process.interrupt, process.make_name, process.make_cmd]

theorem join_loop_append (h : process_h) (cf : conf) (pre rest : List JoinOS) :
    ∀ (p : process) (i : Bool) (log : List OsCall),
      (p.join_loop h cf i log pre).outcome = none →
      p.join_loop h cf i log (pre ++ rest) =
        process.join_loop h cf (p.join_loop h cf i log pre).p
          (p.join_loop h cf i log pre).interrupted (p.join_loop h cf i log pre).log rest := by
  induction pre with
  | nil => intro p i log _; rfl
  | cons os pre ih =>
    intro p i log hn
    cases ho : (p.join_iter h cf i log os).outcome with
    | some o =>
      rw [join_loop_cons_some h cf p i log os pre o ho, ho] at hn
      cases hn
    | none =>
      rw [join_loop_cons_none h cf p i log os pre ho] at hn
      rw [List.cons_append, join_loop_cons_none h cf p i log os (pre ++ rest) ho,
        join_loop_cons_none h cf p i log os pre ho]
      exact ih _ _ _ hn

theorem join_loop_running (h : process_h) (cf : conf) (pre : List JoinOS) :
    ∀ (p : process) (i : Bool) (log : List OsCall),
      (p.join_loop h cf i log pre).outcome = none →
      (p.join_loop h cf i log pre).p.name_ = p.name_ ∧
      (p.join_loop h cf i log pre).p.raw_ = p.raw_ ∧
      (p.join_loop h cf i log pre).p.bin_ = p.bin_ ∧
      (p.join_loop h cf i log pre).p.cmd_ = p.cmd_ ∧
      (p.join_loop h cf i log pre).p.flags_ = p.flags_ ∧
      (p.join_loop h cf i log pre).p.impl_.handle = p.impl_.handle ∧
      (p.join_loop h cf i log pre).p.impl_.interrupt =
        (p.impl_.interrupt || pre.any fun os => os.interrupt_called) := by
  induction pre with
  | nil => intro p i log _; simp [join_loop_nil]
  | cons os pre ih =>
    intro p i log hn
    cases ho : (p.join_iter h cf i log os).outcome with
    | some o =>
      rw [join_loop_cons_some h cf p i log os pre o ho, ho] at hn
      cases hn
    | none =>
      rw [join_loop_cons_none h cf p i log os pre ho] at hn ⊢
      obtain ⟨h1, h2, h3, h4, h5, h6, h7⟩ := ih _ _ _ hn
      obtain ⟨c1, c2, c3, c4, c5⟩ := join_iter_config h cf p i log os
      obtain ⟨r1, r2, _⟩ := join_iter_running h cf p i log os ho
      refine ⟨h1.trans c1, h2.trans c2, h3.trans c3, h4.trans c4, h5.trans c5, h6.trans r1, ?_⟩
      rw [h7, r2, List.any_cons, Bool.or_assoc]

theorem join_loop_handle (h : process_h) (cf : conf) (trace : List JoinOS) :
    ∀ (p : process) (i : Bool) (log : List OsCall),
      ((p.join_loop h cf i log trace).outcome = some .returned →
        (p.join_loop h cf i log trace).p.impl_.handle = none) ∧
      (∀ b, (p.join_loop h cf i log trace).outcome = some (.bailed b) →
        (p.join_loop h cf i log trace).p.impl_.handle = none) ∧
      (∀ b, (p.join_loop h cf i log trace).outcome = some (.pipe_bailed b) →
        (p.join_loop h cf i log trace).p.impl_.handle = p.impl_.handle) := by
  induction trace with
  | nil => intro p i log; simp [join_loop_nil]
  | cons os rest ih =>
    intro p i log
    cases ho : (p.join_iter h cf i log os).outcome with
    | some o =>
      rw [join_loop_cons_some h cf p i log os rest o ho]
      exact join_iter_handle h cf p i log os
    | none =>
      rw [join_loop_cons_none h cf p i log os rest ho]
      obtain ⟨i1, i2, i3⟩ := ih (p.join_iter h cf i log os).p
        (p.join_iter h cf i log os).interrupted (p.join_iter h cf i log os).log
      refine ⟨i1, i2, fun b hb => ?_⟩
      rw [i3 b hb]
      exact (join_iter_running h cf p i log os ho).1

theorem join_of_handle (h : process_h) (cf : conf) (p : process) (trace : List JoinOS)
    (hd : Nat) (hh : p.impl_.handle = some hd) :
    p.join h cf trace = p.join_loop h cf false [] trace := by
  simp [process.join, hh]

theorem join_without_handle (h : process_h) (cf : conf) (p : process) (trace : List JoinOS)
    (hh : p.impl_.handle = none) :
    p.join h cf trace = ⟨p, false, [], some .returned⟩ := by
  simp [process.join, hh]

theorem join_iter_ways (h : process_h) (cf : conf) (p : process) (i : Bool)
    (log : List OsCall) (os : JoinOS) :
    (os.wait = WAIT_OBJECT_0 →
      (p.join_iter h cf i log os).outcome = some .returned ∨
        ∃ b, (p.join_iter h cf i log os).outcome = some (.bailed b)) ∧
    (os.wait ≠ WAIT_OBJECT_0 → os.wait ≠ WAIT_TIMEOUT →
      (p.join_iter h cf i log os).outcome =
        some (.bailed ⟨"failed to wait on process", some os.last_error⟩)) ∧
    (os.wait = WAIT_TIMEOUT → (p.join_iter h cf i log os).outcome = some .returned →
      os.pid = 0 ∧ i = false ∧ (p.impl_.interrupt || os.interrupt_called) = true ∧
        OsCall.TerminateProcess 0xffff ∈ (p.join_iter h cf i log os).log) ∧
    (os.wait = WAIT_TIMEOUT → ∀ b, (p.join_iter h cf i log os).outcome ≠ some (.bailed b)) := by
  have hne : WAIT_TIMEOUT ≠ WAIT_OBJECT_0 := by decide
  have hne2 : WAIT_OBJECT_0 ≠ WAIT_TIMEOUT := by decide
  unfold process.join_iter
  dsimp only
  repeat' split
  all_goals simp_all [process.release, process.interrupt]

/-- C10, evaluated at the failing input: on a spawned process named `build`, a
first timeout iteration in which `ReadFile` on the stdout pipe fails with error 5
makes `async_pipe::read()` call `bail_out`; `join()` is left by that exception
with the process handle still held, so a second `join()` (the one the destructor
makes) does not return at once: it waits on the handle again and, when the child
has exited with code 7, raises `build returned 7`. Only after that second call
is the handle gone. -/
theorem join_pipe_failure_keeps_handle :
    ((sample_spawned "build" 0).join sample_h (sample_conf false)
      [sample_pipe_failure]).outcome =
      some (.pipe_bailed ⟨"async_pipe read failed", some 5⟩) ∧
    ((sample_spawned "build" 0).join sample_h (sample_conf false)
      [sample_pipe_failure]).p.impl_.handle = some 1 ∧
    (((sample_spawned "build" 0).join sample_h (sample_conf false)
      [sample_pipe_failure]).p.join sample_h (sample_conf false)
        [sample_signalled 7]).outcome = some (.bailed ⟨"build returned 7", none⟩) ∧
    waits (((sample_spawned "build" 0).join sample_h (sample_conf false)
      [sample_pipe_failure]).p.join sample_h (sample_conf false)
        [sample_signalled 7]).log = true ∧
    (((sample_spawned "build" 0).join sample_h (sample_conf false)
      [sample_pipe_failure]).p.join sample_h (sample_conf false)
        [sample_signalled 7]).p.impl_.handle = none := by
  decide

theorem join_ctrl_break_sample :
    ctrl_breaks ((sample_spawned "" 0).join sample_h (sample_conf false)
      [sample_timeout true 4242, sample_timeout true 4242, sample_timeout false 4242,
        sample_signalled 1]).log = 1 := by
  decide

/-- C2, refuted as stated: a child exit code of 4294967295 with `allow_failure`
set makes `join()` return normally, and `exit_code()` is then -1, not
4294967295, while the stored `DWORD` (the number the fatal message would print)
is 4294967295. -/
theorem join_exit_code_counterexample :
    ((sample_spawned "" 1).join sample_h (sample_conf false)
      [sample_signalled 4294967295]).outcome = some .returned ∧
    ((sample_spawned "" 1).join sample_h (sample_conf false)
      [sample_signalled 4294967295]).p.code_ = 4294967295 ∧
    ((sample_spawned "" 1).join sample_h (sample_conf false)
      [sample_signalled 4294967295]).p.exit_code = -1 ∧
    ((sample_spawned "" 1).join sample_h (sample_conf false)
      [sample_signalled 4294967295]).p.exit_code ≠ (4294967295 : Int) := by
  decide

/-- C2, amended: when the loop of `join()` on a held handle reaches an iteration
whose wait is signalled, with child exit code `c` (a `DWORD`): the code is
stored, and `exit_code()` is `c` reinterpreted as a signed 32-bit integer, that
is `c` when `c < 2^31` and `c - 2^32` otherwise. If `allow_failure` is set or an
interrupt has been requested (before `join()` or during any iteration so far),
`join()` returns normally whatever `c` is; otherwise it returns normally iff
`c = 0`, and for `c ≠ 0` it aborts through `bail_out` with the message
`make_name() + " returned " + decimal(c)` and no OS error code, where
`make_name()` is the display name when non-empty and `make_cmd()` otherwise. -/
theorem join_signalled (h : process_h) (cf : conf) (p : process) (pre : List JoinOS)
    (os : JoinOS) (rest : List JoinOS) (hd : Nat)
    (hh : p.impl_.handle = some hd)
    (hpre : (p.join h cf pre).outcome = none)
    (hw : os.wait = WAIT_OBJECT_0)
    (hc : os.exit_code < 2 ^ 32) :
    (p.join h cf (pre ++ os :: rest)).p.code_ = os.exit_code ∧
    (p.join h cf (pre ++ os :: rest)).p.exit_code =
      (if os.exit_code < 2 ^ 31 then (os.exit_code : Int) else (os.exit_code : Int) - 2 ^ 32) ∧
    ((p.flags_ &&& h.allow_failure ≠ 0 ∨
        (p.impl_.interrupt || (pre ++ [os]).any fun o => o.interrupt_called) = true) →
      (p.join h cf (pre ++ os :: rest)).outcome = some .returned) ∧
    (¬ (p.flags_ &&& h.allow_failure ≠ 0 ∨
        (p.impl_.interrupt || (pre ++ [os]).any fun o => o.interrupt_called) = true) →
      ((p.join h cf (pre ++ os :: rest)).outcome = some .returned ↔ os.exit_code = 0) ∧
      (os.exit_code ≠ 0 →
        (p.join h cf (pre ++ os :: rest)).outcome =
          some (.bailed ⟨p.make_name h cf ++ " returned " ++ toString os.exit_code, none⟩))) ∧
    (p.name_ ≠ "" → p.make_name h cf = p.name_) ∧
    (p.name_ = "" → p.make_name h cf = p.make_cmd h cf) := by
  rw [join_of_handle h cf p pre hd hh] at hpre
  rw [join_of_handle h cf p _ hd hh, join_loop_append h cf pre (os :: rest) p false [] hpre]
  obtain ⟨n1, n2, n3, n4, n5, _, n7⟩ := join_loop_running h cf pre p false [] hpre
  generalize p.join_loop h cf false [] pre = s at n1 n2 n3 n4 n5 n7 ⊢
  have hm : os.exit_code % 2 ^ 32 = os.exit_code := Nat.mod_eq_of_lt hc
  obtain ⟨s1, _, s3, s4, s5⟩ := join_iter_signalled h cf s.p s.interrupted s.log os hw
  rw [hm] at s1 s4 s5
  have ho : (s.p.join_iter h cf s.interrupted s.log os).outcome ≠ none := by
    by_cases hcond : s.p.flags_ &&& h.allow_failure ≠ 0 ∨
        (s.p.impl_.interrupt || os.interrupt_called) = true
    · rw [s3 hcond]; simp
    · by_cases h0 : os.exit_code = 0
      · rw [s4 hcond h0]; simp
      · rw [s5 hcond h0]; simp
  have hl : process.join_loop h cf s.p s.interrupted s.log (os :: rest) =
      s.p.join_iter h cf s.interrupted s.log os := by
    cases hq : (s.p.join_iter h cf s.interrupted s.log os).outcome with
    | none => exact absurd hq ho
    | some o => exact join_loop_cons_some h cf s.p s.interrupted s.log os rest o hq
  rw [hl]
  have hreq : (s.p.impl_.interrupt || os.interrupt_called) =
      (p.impl_.interrupt || (pre ++ [os]).any fun o => o.interrupt_called) := by
    rw [n7, List.any_append, Bool.or_assoc]
    simp
  have hname : s.p.make_name h cf = p.make_name h cf :=
    make_name_congr h cf s.p p n1 n2 n3 n4 n5
  rw [n5, hreq] at s3 s4 s5
  rw [hname] at s5
  refine ⟨s1, ?_, s3, ?_, ?_, ?_⟩
  · unfold process.exit_code
    rw [s1, hm]
  · intro hcond
    refine ⟨⟨fun hr => ?_, fun h0 => s4 hcond h0⟩, fun h0 => s5 hcond h0⟩
    by_contra h0
    rw [s5 hcond h0] at hr
    cases hr
  · intro hn
    simp [process.make_name, isEmpty_eq_false_of_ne hn]
  · intro hn
    simp [process.make_name, isEmpty_eq_true_of_eq hn]

/-- Witness for amended C2: the process named `build`, no flags, one timeout and
then exit code 5: `join()` aborts with the message `build returned 5`. -/
theorem join_signalled_witness :
    ((sample_spawned "build" 0).join sample_h (sample_conf false)
      ([sample_timeout false 4242] ++ sample_signalled 5 :: [])).outcome =
      some (.bailed ⟨"build returned 5", none⟩) := by
  have hw := (join_signalled sample_h (sample_conf false) (sample_spawned "build" 0)
    [sample_timeout false 4242] (sample_signalled 5) [] 1 rfl (by decide) rfl
    (by decide)).2.2.2.1 (by decide)
  rw [hw.2 (by decide)]
  decide

/-- Handle release on the exits that `join()` makes itself: for every `join()`
started with a held process handle, whenever the loop ends by a normal return
(exit code zero, non-zero code suppressed by `allow_failure` or an interrupt,
forced termination when the pid is zero) or by a `bail_out` that `join()` calls
(fatal non-zero code, unexpected wait failure), the process holds no handle
afterwards, and a second `join()`, also the one in the destructor, returns at
once, without any OS call and without raising. A `bail_out` raised inside
`async_pipe::read()` is not covered: there the handle stays held. -/
theorem join_releases_handle (h : process_h) (cf : conf) (p : process)
    (trace : List JoinOS) (hd : Nat) (hh : p.impl_.handle = some hd)
    (hend : (p.join h cf trace).outcome = some .returned ∨
      ∃ b, (p.join h cf trace).outcome = some (.bailed b)) :
    (p.join h cf trace).p.impl_.handle = none ∧
    ∀ again : List JoinOS,
      (p.join h cf trace).p.join h cf again =
        ⟨(p.join h cf trace).p, false, [], some .returned⟩ ∧
      waits ((p.join h cf trace).p.join h cf again).log = false ∧
      (p.join h cf trace).p.destroy h cf again = ((p.join h cf trace).p, []) := by
  have hn : (p.join h cf trace).p.impl_.handle = none := by
    rw [join_of_handle h cf p trace hd hh] at hend ⊢
    obtain ⟨l1, l2, _⟩ := join_loop_handle h cf trace p false []
    rcases hend with hr | ⟨b, hb⟩
    · exact l1 hr
    · exact l2 b hb
  refine ⟨hn, fun again => ?_⟩
  have hj := join_without_handle h cf (p.join h cf trace).p again hn
  refine ⟨hj, ?_, ?_⟩
  · rw [hj]; rfl
  · unfold process.destroy
    rw [hj]

/-- An instance of the handle release: a process without `allow_failure` whose
child exits with code 7 after one timeout; `join()` aborts and the handle is
gone. -/
theorem join_releases_handle_witness :
    ((sample_spawned "build" 0).join sample_h (sample_conf false)
      [sample_timeout false 4242, sample_signalled 7]).p.impl_.handle = none :=
  (join_releases_handle sample_h (sample_conf false) (sample_spawned "build" 0)
    [sample_timeout false 4242, sample_signalled 7] 1 rfl
    (Or.inr ⟨⟨"build returned 7", none⟩, by decide⟩)).1

end mob
